import Mathlib

/-!
# Verification of the DL-realNVP flow core

Shallow embedding of the RealNVP-style normalizing-flow core found in the
repository's notebook (`main.ipynb`): the coupling layer, the flow stack,
the generator wrapper, and the mask/initialization helpers.

Modelling conventions:

* A single example (one row of the `[batch, D]` tensor) is a `List ℝ`;
  every tensor operation in the source acts elementwise per row, and the
  batch dimension is an independent map over rows, so per-example
  statements capture the per-example claims of the design document.
* `torch.where(cond, a, b)` on equal-length rows is an elementwise select;
  it is embedded as a three-list zip (`tWhere`).  The per-example
  `scale.sum(dim=1)` is `List.sum`.
* The mask is a `List Bool`.  In the source the mask is a 0/1
  `torch.ByteTensor` (the boolean tensor type of the substrate version the
  notebook ran under, where `~` on such a mask is its logical complement
  and nonzero means true as a `where` condition).
* The scale and translate networks `s`, `t` are arbitrary functions
  `List ℝ → List ℝ` (the source accepts any `torch.nn.Module`); `torch.exp`
  is `Real.exp`.
* Python floats are modelled as real numbers (`ℝ`) and, where only
  rational arithmetic occurs (the mask-threshold computation), as `ℚ`.
-/

/-- Elementwise three-list zip, used to embed elementwise ternary tensor
operations such as `torch.where(cond, a, b)` on equal-length rows. -/
def zipWith3 (f : α → β → γ → δ) : List α → List β → List γ → List δ
  | a :: as, b :: bs, c :: cs => f a b c :: zipWith3 f as bs cs
  | _, _, _ => []

/-- `torch.where(cond, a, b)` on one row: select `a i` where `cond i` holds,
else `b i`. -/
def tWhere (cond : List Bool) (a b : List ℝ) : List ℝ :=
  zipWith3 (fun m v w => if m then v else w) cond a b

/-- `CouplingLayer(s, t, mask)` from the notebook: the scale network `_s`,
the translate network `_t` and the registered `mask` buffer. -/
structure CouplingLayer where
  s : List ℝ → List ℝ
  t : List ℝ → List ℝ
  mask : List Bool

/-- `CouplingLayer.forward` from the notebook:
```
x_    = torch.where(self.mask, x, torch.zeros_like(x))
scale = torch.where(~self.mask, self._s(x_), torch.zeros_like(x_))
trans = torch.where(~self.mask, self._t(x_), torch.zeros_like(x_))
x     = torch.where(~self.mask, x * torch.exp(scale) + trans, x_)
log_det = scale.sum(dim=1)
```
returning the transformed row and its per-example `log_det`. -/
noncomputable def CouplingLayer.forward (c : CouplingLayer) (x : List ℝ) :
    List ℝ × ℝ :=
  let x_ := tWhere c.mask x (List.replicate x.length 0)
  let scale := tWhere (c.mask.map (!·)) (c.s x_) (List.replicate x_.length 0)
  let trans := tWhere (c.mask.map (!·)) (c.t x_) (List.replicate x_.length 0)
  let y := tWhere (c.mask.map (!·))
    (zipWith3 (fun xi si ti => xi * Real.exp si + ti) x scale trans) x_
  (y, scale.sum)

/-- `CouplingLayer.inverse` from the notebook:
```
y_    = torch.where(self.mask, y, torch.zeros_like(y))
scale = torch.where(~self.mask, self._s(y_), torch.zeros_like(y_))
trans = torch.where(~self.mask, self._t(y_), torch.zeros_like(y_))
y     = torch.where(~self.mask, (y - trans) * torch.exp(-1. * scale), y_)
``` -/
noncomputable def CouplingLayer.inverse (c : CouplingLayer) (y : List ℝ) :
    List ℝ :=
  let y_ := tWhere c.mask y (List.replicate y.length 0)
  let scale := tWhere (c.mask.map (!·)) (c.s y_) (List.replicate y_.length 0)
  let trans := tWhere (c.mask.map (!·)) (c.t y_) (List.replicate y_.length 0)
  tWhere (c.mask.map (!·))
    (zipWith3 (fun yi si ti => (yi - ti) * Real.exp (-1 * si)) y scale trans) y_

/-- The `FlowModule` hierarchy of the notebook: a flow is either a
`CouplingLayer` or a `FlowStack` of flows (nesting is allowed, a
`FlowStack` is itself a `FlowModule`). -/
inductive FlowModule where
  | coupling (c : CouplingLayer)
  | stack (ms : List FlowModule)

mutual

/-- `forward` of a `FlowModule`.  For a `FlowStack` this is the notebook's
```
log_abs_det = 0.
for module in self._modules.values():
  x, delta = module(x)
  log_abs_det += delta
return x, log_abs_det
```
the members visited in list order with the running `log_abs_det`
accumulator. -/
noncomputable def FlowModule.forward : FlowModule → List ℝ → List ℝ × ℝ
  | .coupling c, x => c.forward x
  | .stack ms, x => FlowModule.forwardLoop ms x 0

/-- The body of the `FlowStack.forward` loop: state `(x, log_abs_det)`,
one iteration per member, in order. -/
noncomputable def FlowModule.forwardLoop :
    List FlowModule → List ℝ → ℝ → List ℝ × ℝ
  | [], x, acc => (x, acc)
  | m :: rest, x, acc =>
    let r := FlowModule.forward m x
    FlowModule.forwardLoop rest r.1 (acc + r.2)

end

mutual

/-- `inverse` of a `FlowModule`.  For a `FlowStack` this is the notebook's
```
for module in reversed(self._modules.values()):
  y = module.inverse(y)
return y
```
the members' inverses applied in reverse list order (last member first). -/
noncomputable def FlowModule.inverse : FlowModule → List ℝ → List ℝ
  | .coupling c, y => c.inverse y
  | .stack ms, y => FlowModule.inverseLoop ms y

/-- The `FlowStack.inverse` loop over the reversed member list: the head of
the list is applied last. -/
noncomputable def FlowModule.inverseLoop : List FlowModule → List ℝ → List ℝ
  | [], y => y
  | m :: rest, y => FlowModule.inverse m (FlowModule.inverseLoop rest y)

end

/-- The prior collaborator: the only operation the flow core calls on it
for density evaluation is `log_prob` (per-example log-density). -/
structure Distribution where
  log_prob : List ℝ → ℝ

/-- `FlowGenerator(net, prior)` from the notebook: stores `self._net` and
`self._prior`. -/
structure FlowGenerator where
  net : FlowModule
  prior : Distribution

/-- `FlowGenerator.log_p` from the notebook:
```
y, log_abs_det = self._net(x)
return prior.log_prob(y) + log_abs_det
```
Note: the body's `prior` is a free variable.  Python resolves it to the
module-level global `prior` defined in the notebook's main cell, not to the
stored `self._prior`; the embedding therefore threads that global
explicitly as `globalPrior`. -/
noncomputable def FlowGenerator.log_p (globalPrior : Distribution)
    (g : FlowGenerator) (x : List ℝ) : ℝ :=
  let r := g.net.forward x
  globalPrior.log_prob r.1 + r.2

/-- `create_mask(n, p)` from the notebook:
```
idx = torch.randperm(n).byte()
mask = torch.where(idx > p * (n - 1), torch.ones_like(idx), torch.zeros_like(idx))
```
The drawn permutation of `0..n-1` is passed in as `perm`; `.byte()`
truncates each entry to an unsigned byte (`% 256`); the comparison with the
threshold `p * (n - 1)` is exact order on the resulting values (rationals
suffice since `p` and the threshold are the only non-integers); the
`where(·, 1, 0)` then yields the 0/1 byte mask, i.e. the boolean directly. -/
def create_mask (n : ℕ) (p : ℚ) (perm : List ℕ) : List Bool :=
  let idx : List ℕ := perm.map (fun k => k % 256)
  idx.map fun (k : ℕ) => decide (((k : ℕ) : ℚ) > p * ((n : ℚ) - 1))

/-- `create_2cl(n, p, ht, hs)` from the notebook:
```
mask = create_mask(n, p)
... t1, t2 = create_t(n, ht); s1, s2 = create_s(n, hs)
cl1 = CouplingLayer(s1, t1, mask)
cl2 = CouplingLayer(s2, t2, ~mask)
return FlowStack(cl1, cl2)
```
The four freshly initialized subnetworks are passed in as the functions
they compute (their random parameters are irrelevant to the mask
structure); `~mask` on the 0/1 byte mask is its logical complement. -/
def create_2cl (n : ℕ) (p : ℚ) (perm : List ℕ)
    (s1 t1 s2 t2 : List ℝ → List ℝ) : FlowModule :=
  let mask := create_mask n p perm
  .stack [.coupling ⟨s1, t1, mask⟩, .coupling ⟨s2, t2, mask.map (!·)⟩]

/-- A dynamically typed Python value as seen by the constructors'
`isinstance` checks: a `FlowModule`, a `Distribution`, or anything else. -/
inductive PyObj where
  | flowModule (m : FlowModule)
  | distribution (d : Distribution)
  | plain (tag : ℕ)

/-- `isinstance(·, FlowModule)`. -/
def PyObj.isFlowModule : PyObj → Bool
  | .flowModule _ => true
  | _ => false

/-- `isinstance(·, torch.distributions.distribution.Distribution)`. -/
def PyObj.isDistribution : PyObj → Bool
  | .distribution _ => true
  | _ => false

/-- `FlowStack.__init__(self, *args)` from the notebook:
```
for net in args:
  assert(isinstance(net, FlowModule))
super().__init__(*args)
```
`none` models the `AssertionError` raised at construction time, before any
data is processed. -/
def FlowStack.init (args : List PyObj) : Option FlowModule :=
  if args.all PyObj.isFlowModule then
    some (.stack (args.filterMap fun a =>
      match a with | .flowModule m => some m | _ => none))
  else none

/-- `FlowGenerator.__init__(self, net, prior)` from the notebook:
```
assert(isinstance(net, FlowModule))
assert(isinstance(prior, torch.distributions.distribution.Distribution))
self._net = net; self._prior = prior
```
`none` models the `AssertionError` raised at construction time. -/
def FlowGenerator.init (net pr : PyObj) : Option FlowGenerator :=
  match net, pr with
  | .flowModule m, .distribution d => some ⟨m, d⟩
  | _, _ => none

/-- The substrate's broadcast rule for one (trailing) dimension: two
lengths are compatible when they are equal or one of them is 1; an
incompatible pair is a runtime shape error (`none`). -/
def broadcastLen (a b : ℕ) : Option ℕ :=
  if a = b then some a else if a = 1 then some b else if b = 1 then some a
  else none

/-- Broadcast compatibility of three lengths (condition and both branches
of a `where`), combined pairwise. -/
def broadcastLen3 (a b c : ℕ) : Option ℕ :=
  match broadcastLen a b with
  | none => none
  | some ab => broadcastLen ab c

/-- Reading a possibly length-1 (broadcast) row at position `i`. -/
def bidx (l : List α) (d : α) (i : ℕ) : α :=
  if l.length = 1 then l.getD 0 d else l.getD i d

/-- A binary elementwise tensor operation with the substrate's broadcast
semantics on the last dimension; `none` is the runtime shape error. -/
def bcast2 (f : ℝ → ℝ → ℝ) (a b : List ℝ) : Option (List ℝ) :=
  match broadcastLen a.length b.length with
  | none => none
  | some L => some ((List.range L).map fun i => f (bidx a 0 i) (bidx b 0 i))

/-- `torch.where(cond, a, b)` with the substrate's broadcast semantics on
the last dimension; `none` is the runtime shape error. -/
def bwhere (cond : List Bool) (a b : List ℝ) : Option (List ℝ) :=
  match broadcastLen3 cond.length a.length b.length with
  | none => none
  | some L => some ((List.range L).map fun i =>
      if bidx cond false i then bidx a 0 i else bidx b 0 i)

/-- `CouplingLayer.forward` re-read with the substrate's actual shape
semantics: every elementwise step broadcasts when the lengths allow it and
fails (`none`, the substrate's runtime shape error) when they do not.
`x * torch.exp(scale) + trans` is two broadcasting binary operations. -/
noncomputable def CouplingLayer.forwardShaped (c : CouplingLayer)
    (x : List ℝ) : Option (List ℝ × ℝ) :=
  (bwhere c.mask x (List.replicate x.length 0)).bind fun x_ =>
  (bwhere (c.mask.map (!·)) (c.s x_) (List.replicate x_.length 0)).bind fun scale =>
  (bwhere (c.mask.map (!·)) (c.t x_) (List.replicate x_.length 0)).bind fun trans =>
  (bcast2 (fun xi si => xi * Real.exp si) x scale).bind fun prod =>
  (bcast2 (fun v ti => v + ti) prod trans).bind fun aff =>
  (bwhere (c.mask.map (!·)) aff x_).bind fun y =>
  some (y, scale.sum)

/-- `CouplingLayer.inverse` re-read with the substrate's actual shape
semantics, as in `CouplingLayer.forwardShaped`. -/
noncomputable def CouplingLayer.inverseShaped (c : CouplingLayer)
    (y : List ℝ) : Option (List ℝ) :=
  (bwhere c.mask y (List.replicate y.length 0)).bind fun y_ =>
  (bwhere (c.mask.map (!·)) (c.s y_) (List.replicate y_.length 0)).bind fun scale =>
  (bwhere (c.mask.map (!·)) (c.t y_) (List.replicate y_.length 0)).bind fun trans =>
  (bcast2 (fun yi ti => yi - ti) y trans).bind fun diff =>
  (bcast2 (fun v si => v * Real.exp (-1 * si)) diff scale).bind fun prod =>
  bwhere (c.mask.map (!·)) prod y_

/-- A subnetwork that preserves the feature dimensionality: the `R^D → R^D`
contract the design document requires of the scale/translate
collaborators. -/
def DimPreserving (f : List ℝ → List ℝ) : Prop :=
  ∀ z : List ℝ, (f z).length = z.length

/-- The invertible-transform contract at feature dimension `n`: `forward`
preserves the dimension, and `inverse` applied to the transformed output
returns the input exactly. -/
def FlowContract (m : FlowModule) (n : ℕ) : Prop :=
  (∀ x : List ℝ, x.length = n → ((m.forward x).1).length = n) ∧
  (∀ x : List ℝ, x.length = n → m.inverse (m.forward x).1 = x)

/-- Sequential application of the members' `forward` outputs in list
order: each member consumes the previous member's output. -/
noncomputable def chainOutput : List FlowModule → List ℝ → List ℝ
  | [], x => x
  | m :: rest, x => chainOutput rest (m.forward x).1

/-- The log-dets the individual members return, each evaluated at the
previous member's output. -/
noncomputable def memberLogDets : List FlowModule → List ℝ → List ℝ
  | [], _ => []
  | m :: rest, x => (m.forward x).2 :: memberLogDets rest (m.forward x).1

/-- An everywhere-zero subnetwork: what `create_t`/`create_s` compute when
their parameters are all zero (the design document's zero-initialized
scenario).  It preserves dimensionality. -/
noncomputable def zeroNet : List ℝ → List ℝ := fun z => z.map fun _ => 0

/-- The design document's scenario layer: `D = 2`, `mask = [true, false]`,
zero networks. -/
noncomputable def clDemo : CouplingLayer := ⟨zeroNet, zeroNet, [true, false]⟩

/-- A coupling layer whose mask has length 1, shorter than the demo
inputs: the broadcastable-mismatch case. -/
noncomputable def clBroadcast : CouplingLayer := ⟨zeroNet, zeroNet, [true]⟩

/-- A coupling layer whose mask has length 3: a non-broadcastable mismatch
against length-2 inputs. -/
noncomputable def clMismatch : CouplingLayer :=
  ⟨zeroNet, zeroNet, [true, false, true]⟩

/-- A generator whose own prior assigns log-density 0 everywhere and whose
transform is the empty stack. -/
noncomputable def genDemo : FlowGenerator := ⟨.stack [], ⟨fun _ => 0⟩⟩

/-- A module-level global prior distinct from `genDemo`'s own prior: it
assigns log-density 1 everywhere. -/
noncomputable def priorGlobalDemo : Distribution := ⟨fun _ => 1⟩

theorem zipWith3_length (f : α → β → γ → δ) (a : List α) (b : List β)
    (c : List γ) :
    (zipWith3 f a b c).length = min a.length (min b.length c.length) := by
  induction a generalizing b c with
  | nil => cases b <;> cases c <;> simp [zipWith3]
  | cons x as ih =>
    cases b with
    | nil => simp [zipWith3]
    | cons y bs =>
      cases c with
      | nil => simp [zipWith3]
      | cons z cs =>
        simp only [zipWith3, List.length_cons, ih]
        omega

theorem getD_zipWith3 (f : α → β → γ → δ) (a : List α) (b : List β)
    (c : List γ) (i : ℕ) (da : α) (db : β) (dc : γ) (dd : δ)
    (ha : i < a.length) (hb : i < b.length) (hc : i < c.length) :
    (zipWith3 f a b c).getD i dd = f (a.getD i da) (b.getD i db) (c.getD i dc) := by
  induction a generalizing b c i with
  | nil => simp at ha
  | cons x as ih =>
    cases b with
    | nil => simp at hb
    | cons y bs =>
      cases c with
      | nil => simp at hc
      | cons z cs =>
        cases i with
        | zero => simp [zipWith3]
        | succ j =>
          simp only [zipWith3, List.getD_cons_succ]
          exact ih _ _ _ (by simpa using ha) (by simpa using hb) (by simpa using hc)

theorem tWhere_length (cond : List Bool) (a b : List ℝ) :
    (tWhere cond a b).length = min cond.length (min a.length b.length) :=
  zipWith3_length _ cond a b

theorem getD_tWhere (cond : List Bool) (a b : List ℝ) (i : ℕ)
    (hc : i < cond.length) (ha : i < a.length) (hb : i < b.length) :
    (tWhere cond a b).getD i 0
      = if cond.getD i false then a.getD i 0 else b.getD i 0 :=
  getD_zipWith3 _ cond a b i false 0 0 0 hc ha hb

theorem getD_map_of_lt (f : α → β) (l : List α) (i : ℕ) (da : α) (db : β)
    (h : i < l.length) : (l.map f).getD i db = f (l.getD i da) := by
  induction l generalizing i with
  | nil => simp at h
  | cons x xs ih =>
    cases i with
    | zero => simp
    | succ j => simpa using ih j (by simpa using h)

theorem sum_eq_range_getD (l : List ℝ) :
    l.sum = ∑ i ∈ Finset.range l.length, l.getD i 0 := by
  induction l with
  | nil => simp
  | cons x xs ih =>
    rw [List.sum_cons, List.length_cons, Finset.sum_range_succ']
    simp [ih, add_comm]

theorem countP_range_gt (n m : ℕ) :
    (List.range n).countP (fun k => decide (m < k)) = n - (m + 1) := by
  induction n with
  | zero => simp
  | succ n ih =>
    rw [List.range_succ, List.countP_append, ih]
    by_cases h : m < n <;> simp [List.countP_cons, h] <;> omega

theorem getD_replicate_zero (n i : ℕ) : (List.replicate n (0:ℝ)).getD i 0 = 0 := by
  induction n generalizing i with
  | zero => simp
  | succ n ih => cases i <;> simp [List.replicate, ih]

theorem getD_tWhere_not (mask : List Bool) (a z : List ℝ) (i : ℕ)
    (hma : a.length = mask.length) (hz : z.length = mask.length)
    (hi : i < mask.length) :
    (tWhere (mask.map (!·)) a z).getD i 0 =
      if mask.getD i false then z.getD i 0 else a.getD i 0 := by
  rw [getD_tWhere _ _ _ i (by simpa using hi) (by omega) (by omega),
    getD_map_of_lt _ _ _ false _ hi]
  cases mask.getD i false <;> simp

theorem getD_maskIn (mask : List Bool) (x : List ℝ) (i : ℕ)
    (hx : x.length = mask.length) (hi : i < mask.length) :
    (tWhere mask x (List.replicate x.length 0)).getD i 0 =
      if mask.getD i false then x.getD i 0 else 0 := by
  rw [getD_tWhere _ _ _ i hi (by omega) (by simp; omega), getD_replicate_zero]

theorem coupling_forward_len (c : CouplingLayer) (x : List ℝ) (n : ℕ)
    (hm : c.mask.length = n) (hx : x.length = n)
    (hs : DimPreserving c.s) (ht : DimPreserving c.t) :
    ((c.forward x).1).length = n := by
  simp only [DimPreserving] at hs ht
  simp only [CouplingLayer.forward, tWhere_length, zipWith3_length,
    List.length_map, List.length_replicate, hs, ht, hm, hx]
  omega

theorem coupling_forward_getD (c : CouplingLayer) (x : List ℝ) (n : ℕ)
    (hm : c.mask.length = n) (hx : x.length = n)
    (hs : DimPreserving c.s) (ht : DimPreserving c.t)
    (i : ℕ) (hi : i < n) :
    ((c.forward x).1).getD i 0 =
      if c.mask.getD i false then x.getD i 0
      else x.getD i 0 *
          Real.exp ((c.s (tWhere c.mask x (List.replicate x.length 0))).getD i 0)
          + (c.t (tWhere c.mask x (List.replicate x.length 0))).getD i 0 := by
  simp only [DimPreserving] at hs ht
  have hxu := getD_maskIn c.mask x i (by omega) (by omega)
  have hul : (tWhere c.mask x (List.replicate x.length 0)).length = n := by
    rw [tWhere_length]; simp [hm, hx]
  simp only [CouplingLayer.forward]
  generalize hu : tWhere c.mask x (List.replicate x.length 0) = u at hxu hul ⊢
  have hsu : (c.s u).length = n := by rw [hs u, hul]
  have htu : (c.t u).length = n := by rw [ht u, hul]
  have hSg : (tWhere (c.mask.map (!·)) (c.s u) (List.replicate u.length 0)).getD i 0
      = if c.mask.getD i false then 0 else (c.s u).getD i 0 := by
    rw [getD_tWhere_not c.mask _ _ i (by omega) (by simp; omega) (by omega),
      getD_replicate_zero]
  have hTg : (tWhere (c.mask.map (!·)) (c.t u) (List.replicate u.length 0)).getD i 0
      = if c.mask.getD i false then 0 else (c.t u).getD i 0 := by
    rw [getD_tWhere_not c.mask _ _ i (by omega) (by simp; omega) (by omega),
      getD_replicate_zero]
  have hSlen : (tWhere (c.mask.map (!·)) (c.s u) (List.replicate u.length 0)).length = n := by
    rw [tWhere_length]; simp [hm, hsu, hul]
  have hTlen : (tWhere (c.mask.map (!·)) (c.t u) (List.replicate u.length 0)).length = n := by
    rw [tWhere_length]; simp [hm, htu, hul]
  have hA : (zipWith3 (fun xi si ti => xi * Real.exp si + ti) x
      (tWhere (c.mask.map (!·)) (c.s u) (List.replicate u.length 0))
      (tWhere (c.mask.map (!·)) (c.t u) (List.replicate u.length 0))).getD i 0
      = x.getD i 0 *
          Real.exp ((tWhere (c.mask.map (!·)) (c.s u) (List.replicate u.length 0)).getD i 0)
          + (tWhere (c.mask.map (!·)) (c.t u) (List.replicate u.length 0)).getD i 0 :=
    getD_zipWith3 _ _ _ _ i 0 0 0 0 (by omega) (by omega) (by omega)
  have hW := getD_tWhere_not c.mask
      (zipWith3 (fun xi si ti => xi * Real.exp si + ti) x
        (tWhere (c.mask.map (!·)) (c.s u) (List.replicate u.length 0))
        (tWhere (c.mask.map (!·)) (c.t u) (List.replicate u.length 0))) u i
      (by rw [zipWith3_length]; omega) (by omega) (by omega)
  simp only [hW, hA, hSg, hTg, hxu]
  cases c.mask.getD i false <;> simp

theorem coupling_forward_logdet (c : CouplingLayer) (x : List ℝ) (n : ℕ)
    (hm : c.mask.length = n) (hx : x.length = n)
    (hs : DimPreserving c.s) (ht : DimPreserving c.t) :
    (c.forward x).2 = ∑ i ∈ Finset.range n,
      if c.mask.getD i false then 0
      else (c.s (tWhere c.mask x (List.replicate x.length 0))).getD i 0 := by
  simp only [DimPreserving] at hs ht
  have hul : (tWhere c.mask x (List.replicate x.length 0)).length = n := by
    rw [tWhere_length]; simp [hm, hx]
  simp only [CouplingLayer.forward]
  generalize hu : tWhere c.mask x (List.replicate x.length 0) = u at hul ⊢
  have hsu : (c.s u).length = n := by rw [hs u, hul]
  have hSlen : (tWhere (c.mask.map (!·)) (c.s u) (List.replicate u.length 0)).length = n := by
    rw [tWhere_length]; simp [hm, hsu, hul]
  rw [sum_eq_range_getD, hSlen]
  refine Finset.sum_congr rfl ?_
  intro i hij
  rw [Finset.mem_range] at hij
  rw [getD_tWhere_not c.mask _ _ i (by omega) (by simp; omega) (by omega),
    getD_replicate_zero]

theorem coupling_inverse_len (c : CouplingLayer) (y : List ℝ) (n : ℕ)
    (hm : c.mask.length = n) (hy : y.length = n)
    (hs : DimPreserving c.s) (ht : DimPreserving c.t) :
    (c.inverse y).length = n := by
  simp only [DimPreserving] at hs ht
  simp only [CouplingLayer.inverse, tWhere_length, zipWith3_length,
    List.length_map, List.length_replicate, hs, ht, hm, hy]
  omega

theorem coupling_inverse_getD (c : CouplingLayer) (y : List ℝ) (n : ℕ)
    (hm : c.mask.length = n) (hy : y.length = n)
    (hs : DimPreserving c.s) (ht : DimPreserving c.t)
    (i : ℕ) (hi : i < n) :
    (c.inverse y).getD i 0 =
      if c.mask.getD i false then y.getD i 0
      else (y.getD i 0
          - (c.t (tWhere c.mask y (List.replicate y.length 0))).getD i 0) *
          Real.exp (-1 * (c.s (tWhere c.mask y (List.replicate y.length 0))).getD i 0) := by
  simp only [DimPreserving] at hs ht
  have hxu := getD_maskIn c.mask y i (by omega) (by omega)
  have hul : (tWhere c.mask y (List.replicate y.length 0)).length = n := by
    rw [tWhere_length]; simp [hm, hy]
  simp only [CouplingLayer.inverse]
  generalize hu : tWhere c.mask y (List.replicate y.length 0) = u at hxu hul ⊢
  have hsu : (c.s u).length = n := by rw [hs u, hul]
  have htu : (c.t u).length = n := by rw [ht u, hul]
  have hSg : (tWhere (c.mask.map (!·)) (c.s u) (List.replicate u.length 0)).getD i 0
      = if c.mask.getD i false then 0 else (c.s u).getD i 0 := by
    rw [getD_tWhere_not c.mask _ _ i (by omega) (by simp; omega) (by omega),
      getD_replicate_zero]
  have hTg : (tWhere (c.mask.map (!·)) (c.t u) (List.replicate u.length 0)).getD i 0
      = if c.mask.getD i false then 0 else (c.t u).getD i 0 := by
    rw [getD_tWhere_not c.mask _ _ i (by omega) (by simp; omega) (by omega),
      getD_replicate_zero]
  have hSlen : (tWhere (c.mask.map (!·)) (c.s u) (List.replicate u.length 0)).length = n := by
    rw [tWhere_length]; simp [hm, hsu, hul]
  have hTlen : (tWhere (c.mask.map (!·)) (c.t u) (List.replicate u.length 0)).length = n := by
    rw [tWhere_length]; simp [hm, htu, hul]
  have hA : (zipWith3 (fun yi si ti => (yi - ti) * Real.exp (-1 * si)) y
      (tWhere (c.mask.map (!·)) (c.s u) (List.replicate u.length 0))
      (tWhere (c.mask.map (!·)) (c.t u) (List.replicate u.length 0))).getD i 0
      = (y.getD i 0
          - (tWhere (c.mask.map (!·)) (c.t u) (List.replicate u.length 0)).getD i 0) *
          Real.exp (-1 * (tWhere (c.mask.map (!·)) (c.s u) (List.replicate u.length 0)).getD i 0) :=
    getD_zipWith3 _ _ _ _ i 0 0 0 0 (by omega) (by omega) (by omega)
  have hW := getD_tWhere_not c.mask
      (zipWith3 (fun yi si ti => (yi - ti) * Real.exp (-1 * si)) y
        (tWhere (c.mask.map (!·)) (c.s u) (List.replicate u.length 0))
        (tWhere (c.mask.map (!·)) (c.t u) (List.replicate u.length 0))) u i
      (by rw [zipWith3_length]; omega) (by omega) (by omega)
  simp only [hW, hA, hSg, hTg, hxu]
  cases c.mask.getD i false <;> simp

theorem coupling_masked_stable (c : CouplingLayer) (x : List ℝ) (n : ℕ)
    (hm : c.mask.length = n) (hx : x.length = n)
    (hs : DimPreserving c.s) (ht : DimPreserving c.t) :
    tWhere c.mask ((c.forward x).1) (List.replicate ((c.forward x).1).length 0)
      = tWhere c.mask x (List.replicate x.length 0) := by
  have hylen : ((c.forward x).1).length = n :=
    coupling_forward_len c x n hm hx hs ht
  apply List.ext_getElem
  · rw [tWhere_length, tWhere_length]; simp [hm, hx, hylen]
  · intro i h1 h2
    have hi : i < n := by
      rw [tWhere_length] at h1; simp [hm, hylen] at h1; omega
    rw [← List.getD_eq_getElem _ 0, ← List.getD_eq_getElem _ 0]
    rw [getD_maskIn c.mask _ i (by omega) (by omega),
      getD_maskIn c.mask x i (by omega) (by omega)]
    cases hmi : c.mask.getD i false
    · rfl
    · rw [coupling_forward_getD c x n hm hx hs ht i hi, hmi]
      simp

theorem coupling_roundtrip (c : CouplingLayer) (x : List ℝ) (n : ℕ)
    (hm : c.mask.length = n) (hx : x.length = n)
    (hs : DimPreserving c.s) (ht : DimPreserving c.t) :
    c.inverse ((c.forward x).1) = x := by
  have hylen : ((c.forward x).1).length = n :=
    coupling_forward_len c x n hm hx hs ht
  apply List.ext_getElem
  · rw [coupling_inverse_len c _ n hm hylen hs ht, hx]
  · intro i h1 h2
    have hi : i < n := by omega
    rw [← List.getD_eq_getElem _ 0, ← List.getD_eq_getElem _ 0]
    rw [coupling_inverse_getD c _ n hm hylen hs ht i hi,
      coupling_masked_stable c x n hm hx hs ht]
    rw [coupling_forward_getD c x n hm hx hs ht i hi]
    cases hmi : c.mask.getD i false
    · simp only [Bool.false_eq_true, if_false]
      rw [add_sub_cancel_right, neg_one_mul, mul_assoc, ← Real.exp_add,
        add_neg_cancel, Real.exp_zero, mul_one]
    · simp

theorem forwardLoop_eq (ms : List FlowModule) (x : List ℝ) (acc : ℝ) :
    FlowModule.forwardLoop ms x acc
      = (chainOutput ms x, acc + (memberLogDets ms x).sum) := by
  induction ms generalizing x acc with
  | nil => simp [FlowModule.forwardLoop, chainOutput, memberLogDets]
  | cons m rest ih =>
    simp [FlowModule.forwardLoop, chainOutput, memberLogDets, ih, add_assoc]

theorem stack_forward_eq (ms : List FlowModule) (x : List ℝ) :
    FlowModule.forward (.stack ms) x
      = (chainOutput ms x, (memberLogDets ms x).sum) := by
  simp [FlowModule.forward, forwardLoop_eq]

theorem inverseLoop_eq_foldl (ms : List FlowModule) (y : List ℝ) :
    FlowModule.inverseLoop ms y
      = ms.reverse.foldl (fun a m => FlowModule.inverse m a) y := by
  induction ms generalizing y with
  | nil => simp [FlowModule.inverseLoop]
  | cons m rest ih =>
    simp [FlowModule.inverseLoop, List.reverse_cons, List.foldl_append, ih]

theorem chainOutput_length (ms : List FlowModule) (n : ℕ)
    (h : ∀ m ∈ ms, FlowContract m n) (x : List ℝ) (hx : x.length = n) :
    (chainOutput ms x).length = n := by
  induction ms generalizing x with
  | nil => simpa [chainOutput] using hx
  | cons m rest ih =>
    simp only [chainOutput]
    exact ih (fun q hq => h q (List.mem_cons_of_mem _ hq)) _
      ((h m (List.mem_cons_self _ _)).1 x hx)

theorem inverseLoop_chainOutput (ms : List FlowModule) (n : ℕ)
    (h : ∀ m ∈ ms, FlowContract m n) (x : List ℝ) (hx : x.length = n) :
    FlowModule.inverseLoop ms (chainOutput ms x) = x := by
  induction ms generalizing x with
  | nil => simp [FlowModule.inverseLoop, chainOutput]
  | cons m rest ih =>
    simp only [FlowModule.inverseLoop, chainOutput]
    rw [ih (fun q hq => h q (List.mem_cons_of_mem _ hq)) _
      ((h m (List.mem_cons_self _ _)).1 x hx)]
    exact (h m (List.mem_cons_self _ _)).2 x hx

theorem coupling_contract (c : CouplingLayer) (n : ℕ)
    (hm : c.mask.length = n)
    (hs : DimPreserving c.s) (ht : DimPreserving c.t) :
    FlowContract (.coupling c) n := by
  constructor
  · intro x hx
    simpa [FlowModule.forward] using coupling_forward_len c x n hm hx hs ht
  · intro x hx
    simp only [FlowModule.forward, FlowModule.inverse]
    exact coupling_roundtrip c x n hm hx hs ht

theorem stack_contract (ms : List FlowModule) (n : ℕ)
    (h : ∀ m ∈ ms, FlowContract m n) : FlowContract (.stack ms) n := by
  constructor
  · intro x hx
    rw [stack_forward_eq]
    exact chainOutput_length ms n h x hx
  · intro x hx
    rw [stack_forward_eq]
    simp only [FlowModule.inverse]
    exact inverseLoop_chainOutput ms n h x hx

/-- C1: Round-trip identity.  For a coupling layer with fixed
(dimension-preserving) scale and translate networks and a mask matching
the input's feature dimension, `inverse` applied to the `y`-component of
`forward x` returns `x` exactly; and a `FlowStack` all of whose members
satisfy the forward/inverse contract (dimension preservation plus round
trip) satisfies the round trip as well, so the identity propagates through
arbitrary stacking. -/
theorem coupling_and_stack_roundtrip :
    (∀ (c : CouplingLayer) (n : ℕ) (x : List ℝ), c.mask.length = n →
      x.length = n → DimPreserving c.s → DimPreserving c.t →
      FlowModule.inverse (.coupling c)
        ((FlowModule.forward (.coupling c) x).1) = x) ∧
    (∀ (ms : List FlowModule) (n : ℕ) (x : List ℝ),
      (∀ m ∈ ms, FlowContract m n) → x.length = n →
      FlowModule.inverse (.stack ms)
        ((FlowModule.forward (.stack ms) x).1) = x) := by
  constructor
  · intro c n x hm hx hs ht
    exact (coupling_contract c n hm hs ht).2 x hx
  · intro ms n x h hx
    exact (stack_contract ms n h).2 x hx

/-- Witness for the round-trip theorem at the design document's concrete
scenario: `D = 2`, `mask = [true, false]`, zero networks, `x = [1, 2]`,
both for the bare layer and for a one-member stack. -/
theorem coupling_and_stack_roundtrip_witness :
    FlowModule.inverse (.coupling clDemo)
      ((FlowModule.forward (.coupling clDemo) [1, 2]).1) = [1, 2] ∧
    FlowModule.inverse (.stack [.coupling clDemo])
      ((FlowModule.forward (.stack [.coupling clDemo]) [1, 2]).1) = [1, 2] := by
  have hs : DimPreserving clDemo.s := by intro z; simp [clDemo, zeroNet]
  have ht : DimPreserving clDemo.t := by intro z; simp [clDemo, zeroNet]
  have hm : clDemo.mask.length = 2 := by simp [clDemo]
  constructor
  · exact coupling_and_stack_roundtrip.1 clDemo 2 [1, 2] hm (by simp) hs ht
  · refine coupling_and_stack_roundtrip.2 [.coupling clDemo] 2 [1, 2] ?_ (by simp)
    intro m hmem
    rw [List.mem_singleton] at hmem
    subst hmem
    exact coupling_contract clDemo 2 hm hs ht

/-- C2: `CouplingLayer.forward` postcondition.  The output has the input's
dimension; it equals `x` on every mask-true dimension; on every mask-false
dimension it is `x * exp(scale) + trans` with `scale`/`trans` the networks
evaluated on `x` with its mask-false dimensions zeroed; and the returned
`log_det` is the sum of `scale` over exactly the mask-false dimensions
(mask-true dimensions contribute nothing). -/
theorem coupling_forward_postcondition (c : CouplingLayer) (x : List ℝ)
    (n : ℕ) (hm : c.mask.length = n) (hx : x.length = n)
    (hs : DimPreserving c.s) (ht : DimPreserving c.t) :
    ((c.forward x).1).length = n ∧
    (∀ i, i < n → c.mask.getD i false = true →
      ((c.forward x).1).getD i 0 = x.getD i 0) ∧
    (∀ i, i < n → c.mask.getD i false = false →
      ((c.forward x).1).getD i 0 =
        x.getD i 0 *
          Real.exp ((c.s (tWhere c.mask x (List.replicate x.length 0))).getD i 0)
          + (c.t (tWhere c.mask x (List.replicate x.length 0))).getD i 0) ∧
    ((c.forward x).2 = ∑ i ∈ Finset.range n,
      if c.mask.getD i false then 0
      else (c.s (tWhere c.mask x (List.replicate x.length 0))).getD i 0) := by
  refine ⟨coupling_forward_len c x n hm hx hs ht, ?_, ?_,
    coupling_forward_logdet c x n hm hx hs ht⟩
  · intro i hi hmi
    rw [coupling_forward_getD c x n hm hx hs ht i hi, hmi]
    simp
  · intro i hi hmi
    rw [coupling_forward_getD c x n hm hx hs ht i hi, hmi]
    simp

/-- Witness for the forward postcondition at the scenario layer
(`mask = [true, false]`, zero networks) and input `[1, 2]`. -/
theorem coupling_forward_postcondition_witness :
    ((clDemo.forward [1, 2]).1).length = 2 ∧
    (∀ i, i < 2 → clDemo.mask.getD i false = true →
      ((clDemo.forward [1, 2]).1).getD i 0 = ([1, 2] : List ℝ).getD i 0) ∧
    (∀ i, i < 2 → clDemo.mask.getD i false = false →
      ((clDemo.forward [1, 2]).1).getD i 0 =
        ([1, 2] : List ℝ).getD i 0 *
          Real.exp ((clDemo.s (tWhere clDemo.mask [1, 2]
            (List.replicate ([1, 2] : List ℝ).length 0))).getD i 0)
          + (clDemo.t (tWhere clDemo.mask [1, 2]
            (List.replicate ([1, 2] : List ℝ).length 0))).getD i 0) ∧
    ((clDemo.forward [1, 2]).2 = ∑ i ∈ Finset.range 2,
      if clDemo.mask.getD i false then 0
      else (clDemo.s (tWhere clDemo.mask [1, 2]
        (List.replicate ([1, 2] : List ℝ).length 0))).getD i 0) :=
  coupling_forward_postcondition clDemo [1, 2] 2 (by simp [clDemo]) (by simp)
    (by intro z; simp [clDemo, zeroNet]) (by intro z; simp [clDemo, zeroNet])

/-- C3: `FlowStack.forward` applies its members' forwards in list order,
each member consuming the previous member's output (`chainOutput`), and
the returned `log_det` is the sum of the members' individual log-dets
(`memberLogDets`), for members of any kind, including nested stacks. -/
theorem stack_forward_order_and_logdet_additivity :
    (∀ (ms : List FlowModule) (x : List ℝ),
      FlowModule.forward (.stack ms) x
        = (chainOutput ms x, (memberLogDets ms x).sum)) ∧
    (∀ (m : FlowModule) (rest : List FlowModule) (x : List ℝ),
      chainOutput (m :: rest) x = chainOutput rest ((m.forward x).1) ∧
      memberLogDets (m :: rest) x
        = (m.forward x).2 :: memberLogDets rest ((m.forward x).1)) :=
  ⟨stack_forward_eq, fun _ _ _ => ⟨rfl, rfl⟩⟩

/-- C4: `FlowStack.inverse` applies each member's inverse in exactly the
reverse of the list order and returns the result; no log-det accompanies
it (the operation returns only the tensor). -/
theorem stack_inverse_reverse_order (ms : List FlowModule) (y : List ℝ) :
    FlowModule.inverse (.stack ms) y
      = ms.reverse.foldl (fun a m => FlowModule.inverse m a) y := by
  simp [FlowModule.inverse, inverseLoop_eq_foldl]

/-- C5 (code bug): `FlowGenerator.log_p` reads the module-level global
`prior`, not the stored `self._prior`.  With the generator's own prior
assigning log-density 0 everywhere and the global prior assigning 1,
`log_p` on the empty-stack generator returns 1, while the claimed value
using the instance's own prior is 0. -/
theorem log_p_uses_global_prior :
    FlowGenerator.log_p priorGlobalDemo genDemo [] = 1 ∧
    genDemo.prior.log_prob ((genDemo.net.forward []).1)
      + (genDemo.net.forward []).2 = 0 ∧
    FlowGenerator.log_p priorGlobalDemo genDemo []
      ≠ genDemo.prior.log_prob ((genDemo.net.forward []).1)
        + (genDemo.net.forward []).2 := by
  refine ⟨?_, ?_, ?_⟩ <;>
    simp [FlowGenerator.log_p, genDemo, priorGlobalDemo, stack_forward_eq,
      chainOutput, memberLogDets]

/-- C6: in `create_2cl` the second coupling layer's mask is the exact
logical complement of the first's, and XOR of the two masks is all-true:
every dimension is transformed exactly once per block pass. -/
theorem create_2cl_mask_complement (n : ℕ) (p : ℚ) (perm : List ℕ)
    (s1 t1 s2 t2 : List ℝ → List ℝ) :
    ∃ c1 c2 : CouplingLayer,
      create_2cl n p perm s1 t1 s2 t2
        = .stack [.coupling c1, .coupling c2] ∧
      c2.mask = c1.mask.map (!·) ∧
      List.zipWith Bool.xor c1.mask c2.mask
        = List.replicate c1.mask.length true := by
  refine ⟨⟨s1, t1, create_mask n p perm⟩,
    ⟨s2, t2, (create_mask n p perm).map (!·)⟩, rfl, rfl, ?_⟩
  generalize create_mask n p perm = l
  induction l with
  | nil => simp
  | cons b bs ih => cases b <;> simp [ih, List.replicate_succ]

theorem count_true_map (F : ℕ → Bool) (l : List ℕ) :
    (l.map F).count true = l.countP F := by
  induction l with
  | nil => simp
  | cons a l ih =>
    cases hF : F a <;> simp [List.count_cons, List.countP_cons, hF, ih]

theorem create_mask_eq_map (n : ℕ) (p : ℚ) (perm : List ℕ) :
    create_mask n p perm
      = perm.map (fun k => decide (((k % 256 : ℕ) : ℚ) > p * ((n : ℚ) - 1))) := by
  simp [create_mask, List.map_map]

theorem create_mask_count (n : ℕ) (p : ℚ) (perm : List ℕ)
    (h : perm.Perm (List.range n)) :
    (create_mask n p perm).count true
      = (List.range n).countP
          (fun k => decide (((k % 256 : ℕ) : ℚ) > p * ((n : ℚ) - 1))) := by
  rw [create_mask_eq_map, count_true_map]
  exact h.countP_eq _

theorem create_mask_count_closed (n : ℕ) (p : ℚ) (perm : List ℕ)
    (h : perm.Perm (List.range n)) (hn1 : 1 ≤ n) (hn : n ≤ 256)
    (hp0 : 0 ≤ p) (_hp1 : p ≤ 1) :
    (create_mask n p perm).count true
      = (n - 1) - Nat.floor (p * ((n : ℚ) - 1)) := by
  have ht0 : 0 ≤ p * ((n : ℚ) - 1) := by
    apply mul_nonneg hp0
    have h1 : (1 : ℚ) ≤ (n : ℚ) := by exact_mod_cast hn1
    linarith
  rw [create_mask_count n p perm h]
  rw [List.countP_congr (q := fun k => decide (Nat.floor (p * ((n : ℚ) - 1)) < k)) ?_]
  · rw [countP_range_gt]
    omega
  · intro k hk
    rw [List.mem_range] at hk
    have hmod : k % 256 = k := Nat.mod_eq_of_lt (by omega)
    simp only [hmod, decide_eq_true_eq, gt_iff_lt]
    exact ((Nat.floor_lt ht0)).symm

theorem create_mask_p_one (n : ℕ) (perm : List ℕ)
    (h : perm.Perm (List.range n)) :
    create_mask n 1 perm = List.replicate n false := by
  have hlen : perm.length = n := by simpa using h.length_eq
  rw [create_mask_eq_map]
  apply List.ext_getElem
  · simp [hlen]
  · intro i h1 h2
    rw [List.getElem_replicate, List.getElem_map]
    have hi : i < perm.length := by simpa using h1
    have hpm : perm[i] < n := by
      have hmem : perm[i] ∈ List.range n := h.mem_iff.mp (perm.getElem_mem hi)
      simpa [List.mem_range] using hmem
    have hle : (((perm[i] % 256 : ℕ) : ℚ)) ≤ (n : ℚ) - 1 := by
      have h256 : perm[i] % 256 ≤ perm[i] := Nat.mod_le _ _
      have hc : ((perm[i] % 256 : ℕ) : ℚ) ≤ ((perm[i] : ℕ) : ℚ) := by
        exact_mod_cast h256
      have hc2 : (((perm[i] : ℕ) : ℚ)) ≤ (n : ℚ) - 1 := by
        have : ((perm[i] : ℕ) : ℚ) + 1 ≤ (n : ℚ) := by exact_mod_cast hpm
        linarith
      linarith
    simp only [decide_eq_false_iff_not, gt_iff_lt, not_lt, one_mul]
    exact hle

theorem create_mask_count_deterministic (n : ℕ) (p : ℚ)
    (perm1 perm2 : List ℕ) (h1 : perm1.Perm (List.range n))
    (h2 : perm2.Perm (List.range n)) :
    (create_mask n p perm1).count true = (create_mask n p perm2).count true := by
  rw [create_mask_count n p perm1 h1, create_mask_count n p perm2 h2]

/-- C7 (amended): `create_mask(n, p)` returns a boolean vector of length
`n`; a position is true iff the drawn permutation's value there, reduced
modulo 256 by the `.byte()` cast, strictly exceeds the threshold
`p * (n - 1)`; and the number of true entries is the (permutation-
independent) number of `k < n` whose byte value exceeds the threshold —
for `p` away from the extremes this makes the true ("pass-through")
proportion approximately `1 - p`, not `p`. -/
theorem create_mask_algorithm (n : ℕ) (p : ℚ) (perm : List ℕ)
    (h : perm.Perm (List.range n)) :
    (create_mask n p perm).length = n ∧
    (∀ i, i < n → (create_mask n p perm).getD i false
      = decide (((perm.getD i 0 % 256 : ℕ) : ℚ) > p * ((n : ℚ) - 1))) ∧
    ((create_mask n p perm).count true
      = (List.range n).countP
          (fun k => decide (((k % 256 : ℕ) : ℚ) > p * ((n : ℚ) - 1)))) := by
  have hlen : perm.length = n := by simpa using h.length_eq
  refine ⟨?_, ?_, create_mask_count n p perm h⟩
  · rw [create_mask_eq_map]; simp [hlen]
  · intro i hi
    rw [create_mask_eq_map, getD_map_of_lt _ _ _ 0 _ (by omega)]

/-- Witness for the mask-algorithm theorem at `n = 2`, `p = 1/2`,
permutation `[1, 0]`, where the mask evaluates to `[true, false]`. -/
theorem create_mask_algorithm_witness :
    ((create_mask 2 (1/2) [1, 0]).length = 2 ∧
     (∀ i, i < 2 → (create_mask 2 (1/2) [1, 0]).getD i false
       = decide (((([1, 0] : List ℕ).getD i 0 % 256 : ℕ) : ℚ)
           > (1/2 : ℚ) * ((2 : ℚ) - 1))) ∧
     ((create_mask 2 (1/2) [1, 0]).count true
       = (List.range 2).countP
           (fun k => decide (((k % 256 : ℕ) : ℚ)
             > (1/2 : ℚ) * ((2 : ℚ) - 1))))) ∧
    create_mask 2 (1/2) [1, 0] = [true, false] := by
  refine ⟨create_mask_algorithm 2 (1/2) [1, 0] (by decide), ?_⟩
  rw [create_mask_eq_map]
  norm_num

/-- C7 (counterexample): the claimed pass-through proportion is wrong at
`p = 1` (both permutations of `0..1` give the all-false mask, proportion
0, not approximately 1), and the claimed position criterion (permuted
value strictly exceeds the threshold) is wrong at `n = 257`: under the
identity permutation the value at position 256 is 256, which exceeds the
threshold `(1/4)*(257-1) = 64`, yet the `.byte()` cast wraps it to 0 and
the mask entry is false. -/
theorem create_mask_claim_counterexample :
    (create_mask 2 1 [0, 1] = [false, false] ∧
     create_mask 2 1 [1, 0] = [false, false]) ∧
    ((List.range 257).getD 256 0 = 256 ∧
     ((256 : ℚ) > (1/4 : ℚ) * ((257 : ℚ) - 1)) ∧
     (create_mask 257 (1/4) (List.range 257)).getD 256 false = false) := by
  refine ⟨⟨?_, ?_⟩, ?_, by norm_num, ?_⟩
  · rw [create_mask_p_one 2 [0, 1] (by decide)]; rfl
  · rw [create_mask_p_one 2 [1, 0] (by decide)]; rfl
  · rw [List.getD_eq_getElem _ _ (by simp)]; simp
  · rw [create_mask_eq_map, getD_map_of_lt _ _ _ 0 _ (by simp),
      List.getD_eq_getElem _ _ (by simp)]
    norm_num

/-- C8 (amended): the number of true entries of `create_mask n p` is
deterministic — the same for every permutation the generator may draw;
for `1 ≤ n ≤ 256` (where the `.byte()` cast is the identity on the drawn
values) it equals `(n-1) - ⌊p*(n-1)⌋`; and at `p = 1` the mask is
all-false for every `n`. -/
theorem create_mask_count_formula :
    (∀ (n : ℕ) (p : ℚ) (perm1 perm2 : List ℕ),
      perm1.Perm (List.range n) → perm2.Perm (List.range n) →
      (create_mask n p perm1).count true
        = (create_mask n p perm2).count true) ∧
    (∀ (n : ℕ) (p : ℚ) (perm : List ℕ), perm.Perm (List.range n) →
      1 ≤ n → n ≤ 256 → 0 ≤ p → p ≤ 1 →
      (create_mask n p perm).count true
        = (n - 1) - Nat.floor (p * ((n : ℚ) - 1))) ∧
    (∀ (n : ℕ) (perm : List ℕ), perm.Perm (List.range n) →
      create_mask n 1 perm = List.replicate n false) :=
  ⟨create_mask_count_deterministic,
   fun n p perm h h1 h2 h3 h4 => create_mask_count_closed n p perm h h1 h2 h3 h4,
   create_mask_p_one⟩

/-- Witness for the count formula at `n = 2`, `p = 1/2`: the mask
`[true, false]` has exactly `(2-1) - ⌊1/2⌋ = 1` true entry, the count is
permutation-independent, and `p = 1` yields the all-false mask. -/
theorem create_mask_count_formula_witness :
    ((create_mask 2 (1/2) [1, 0]).count true
      = (create_mask 2 (1/2) [0, 1]).count true) ∧
    ((create_mask 2 (1/2) [1, 0]).count true
      = (2 - 1) - Nat.floor ((1/2 : ℚ) * ((2 : ℚ) - 1))) ∧
    create_mask 2 1 [0, 1] = List.replicate 2 false ∧
    (create_mask 2 (1/2) [1, 0]).count true = 1 := by
  have h1 : create_mask 2 (1/2) [1, 0] = [true, false] := by
    rw [create_mask_eq_map]; norm_num
  refine ⟨create_mask_count_formula.1 2 (1/2) [1, 0] [0, 1]
      (by decide) (by decide),
    create_mask_count_formula.2.1 2 (1/2) [1, 0] (by decide)
      (by norm_num) (by norm_num) (by norm_num) (by norm_num),
    create_mask_count_formula.2.2 2 [0, 1] (by decide), ?_⟩
  rw [h1]
  rfl

set_option maxRecDepth 8000 in
/-- C8 (counterexample): at `n = 257`, `p = 1/4` (threshold 64, in range
for every substrate version) take the identity permutation: the mask has
191 true entries, while the claimed formula — the number of `k < 257`
with `k > 64`, equivalently `(257-1) - ⌊(1/4)*(257-1)⌋` — gives 192.  The
`.byte()` cast wraps the value 256 to 0, losing one qualifying
position. -/
theorem create_mask_count_claim_counterexample :
    (create_mask 257 (1/4) (List.range 257)).count true = 191 ∧
    ((List.range 257).countP
      (fun (k : ℕ) => decide ((k : ℚ) > (1/4 : ℚ) * ((257 : ℚ) - 1))) = 192) ∧
    (257 - 1) - Nat.floor ((1/4 : ℚ) * ((257 : ℚ) - 1)) = 192 := by
  refine ⟨?_, ?_, by norm_num⟩
  · rw [create_mask_count 257 (1/4) _ (List.Perm.refl _)]
    rw [List.countP_congr (q := fun k => decide (64 < k % 256)) ?_]
    · decide
    · intro k _
      have h64 : (1/4 : ℚ) * (((257 : ℕ) : ℚ) - 1) = 64 := by
        push_cast
        norm_num
      simp only [decide_eq_true_eq, gt_iff_lt, h64]
      exact ⟨fun hh => by exact_mod_cast hh, fun hh => by exact_mod_cast hh⟩
  · rw [List.countP_congr (q := fun k => decide (64 < k)) ?_]
    · rw [countP_range_gt]
    · intro k _
      have h64 : (1/4 : ℚ) * ((257 : ℚ) - 1) = 64 := by norm_num
      simp only [decide_eq_true_eq, gt_iff_lt, h64]
      exact ⟨fun hh => by exact_mod_cast hh, fun hh => by exact_mod_cast hh⟩

/-- C9: construction-time validation.  A `FlowStack` whose argument list
contains any value that is not a `FlowModule` fails to construct (the
`assert` fires before any data is processed), and a `FlowGenerator` fails
to construct if its transform is not a `FlowModule` or its prior is not a
`Distribution`. -/
theorem construction_validation :
    (∀ args : List PyObj, (∃ a ∈ args, a.isFlowModule = false) →
      FlowStack.init args = none) ∧
    (∀ net pr : PyObj,
      (net.isFlowModule = false ∨ pr.isDistribution = false) →
      FlowGenerator.init net pr = none) := by
  constructor
  · intro args h
    obtain ⟨a, ha, hfa⟩ := h
    have hc : ¬ (args.all PyObj.isFlowModule = true) := by
      intro hall
      have h2 := (List.all_eq_true.mp hall) a ha
      rw [hfa] at h2
      exact Bool.false_ne_true h2
    simp [FlowStack.init, hc]
  · intro net pr h
    cases net <;> cases pr <;>
      simp_all [FlowGenerator.init, PyObj.isFlowModule, PyObj.isDistribution]

/-- Witness for construction-time validation: a plain (non-flow,
non-distribution) object is rejected by both constructors. -/
theorem construction_validation_witness :
    (∃ a ∈ ([PyObj.plain 0] : List PyObj), a.isFlowModule = false) ∧
    FlowStack.init [PyObj.plain 0] = none ∧
    ((PyObj.plain 0).isFlowModule = false ∨
      (PyObj.plain 1).isDistribution = false) ∧
    FlowGenerator.init (PyObj.plain 0) (PyObj.plain 1) = none :=
  ⟨⟨PyObj.plain 0, by simp, rfl⟩,
   construction_validation.1 [PyObj.plain 0] ⟨PyObj.plain 0, by simp, rfl⟩,
   Or.inl rfl,
   construction_validation.2 (PyObj.plain 0) (PyObj.plain 1) (Or.inl rfl)⟩

theorem getD_zipWith (f : ℝ → ℝ → ℝ) (a b : List ℝ) (i : ℕ)
    (ha : i < a.length) (hb : i < b.length) :
    (List.zipWith f a b).getD i 0 = f (a.getD i 0) (b.getD i 0) := by
  induction a generalizing b i with
  | nil => simp at ha
  | cons x as ih =>
    cases b with
    | nil => simp at hb
    | cons y bs =>
      cases i with
      | zero => simp
      | succ j => simpa using ih bs j (by simpa using ha) (by simpa using hb)

theorem bidx_eq_getD (l : List α) (d : α) (n i : ℕ) (hl : l.length = n)
    (hi : i < n) : bidx l d i = l.getD i d := by
  unfold bidx
  by_cases h1 : l.length = 1
  · rw [if_pos h1]
    have h0 : i = 0 := by omega
    rw [h0]
  · rw [if_neg h1]

theorem broadcastLen_self (n : ℕ) : broadcastLen n n = some n := by
  unfold broadcastLen
  simp

theorem broadcastLen3_self (n : ℕ) : broadcastLen3 n n n = some n := by
  unfold broadcastLen3
  rw [broadcastLen_self]
  exact broadcastLen_self n

theorem bwhere_eq_tWhere (cond : List Bool) (a b : List ℝ) (n : ℕ)
    (hc : cond.length = n) (ha : a.length = n) (hb : b.length = n) :
    bwhere cond a b = some (tWhere cond a b) := by
  have hmap : (List.range n).map
      (fun i => if bidx cond false i then bidx a 0 i else bidx b 0 i)
      = tWhere cond a b := by
    apply List.ext_getElem
    · rw [tWhere_length]
      simp [hc, ha, hb]
    · intro i h1 h2
      simp only [List.getElem_map, List.getElem_range]
      have hi : i < n := by simpa using h1
      rw [bidx_eq_getD cond false n i hc hi, bidx_eq_getD a 0 n i ha hi,
        bidx_eq_getD b 0 n i hb hi,
        ← getD_tWhere cond a b i (by omega) (by omega) (by omega)]
      exact List.getD_eq_getElem _ 0 h2
  unfold bwhere
  rw [hc, ha, hb, broadcastLen3_self]
  exact congrArg some hmap

theorem bcast2_eq_zipWith (f : ℝ → ℝ → ℝ) (a b : List ℝ) (n : ℕ)
    (ha : a.length = n) (hb : b.length = n) :
    bcast2 f a b = some (List.zipWith f a b) := by
  have hmap : (List.range n).map (fun i => f (bidx a 0 i) (bidx b 0 i))
      = List.zipWith f a b := by
    apply List.ext_getElem
    · simp [ha, hb]
    · intro i h1 h2
      simp only [List.getElem_map, List.getElem_range]
      have hi : i < n := by simpa using h1
      rw [bidx_eq_getD a 0 n i ha hi, bidx_eq_getD b 0 n i hb hi,
        ← getD_zipWith f a b i (by omega) (by omega)]
      exact List.getD_eq_getElem _ 0 h2
  unfold bcast2
  rw [ha, hb, broadcastLen_self]
  exact congrArg some hmap

theorem zipWith_mul_exp_add (x s t : List ℝ) :
    List.zipWith (fun v ti => v + ti)
      (List.zipWith (fun xi si => xi * Real.exp si) x s) t
      = zipWith3 (fun xi si ti => xi * Real.exp si + ti) x s t := by
  induction x generalizing s t with
  | nil => simp [zipWith3]
  | cons a as ih =>
    cases s with
    | nil => simp [zipWith3]
    | cons b bs =>
      cases t with
      | nil => simp [zipWith3]
      | cons d ds => simp [zipWith3, ih]

theorem zipWith_sub_mul_exp (y s t : List ℝ) :
    List.zipWith (fun v si => v * Real.exp (-1 * si))
      (List.zipWith (fun yi ti => yi - ti) y t) s
      = zipWith3 (fun yi si ti => (yi - ti) * Real.exp (-1 * si)) y s t := by
  induction y generalizing s t with
  | nil => cases s <;> cases t <;> simp [zipWith3]
  | cons a as ih =>
    cases s with
    | nil => cases t <;> simp [zipWith3]
    | cons b bs =>
      cases t with
      | nil => simp [zipWith3]
      | cons d ds =>
        simp only [List.zipWith_cons_cons, zipWith3, List.cons.injEq]
        exact ⟨trivial, ih bs ds⟩

theorem broadcastLen_mismatch (a b : ℕ) (ha : a ≠ 1) (hb : b ≠ 1)
    (hab : a ≠ b) : broadcastLen a b = none := by
  unfold broadcastLen
  rw [if_neg hab, if_neg ha, if_neg hb]

theorem forwardShaped_shape_error (c : CouplingLayer) (x : List ℝ)
    (hm1 : c.mask.length ≠ 1) (hx1 : x.length ≠ 1)
    (hne : c.mask.length ≠ x.length) :
    c.forwardShaped x = none := by
  have hb : bwhere c.mask x (List.replicate x.length 0) = none := by
    unfold bwhere broadcastLen3
    rw [broadcastLen_mismatch _ _ hm1 hx1 hne]
  unfold CouplingLayer.forwardShaped
  rw [hb]
  rfl

theorem inverseShaped_shape_error (c : CouplingLayer) (y : List ℝ)
    (hm1 : c.mask.length ≠ 1) (hy1 : y.length ≠ 1)
    (hne : c.mask.length ≠ y.length) :
    c.inverseShaped y = none := by
  have hb : bwhere c.mask y (List.replicate y.length 0) = none := by
    unfold bwhere broadcastLen3
    rw [broadcastLen_mismatch _ _ hm1 hy1 hne]
  unfold CouplingLayer.inverseShaped
  rw [hb]
  rfl

theorem forwardShaped_wellshaped (c : CouplingLayer) (x : List ℝ) (n : ℕ)
    (hm : c.mask.length = n) (hx : x.length = n)
    (hs : DimPreserving c.s) (ht : DimPreserving c.t) :
    c.forwardShaped x = some (c.forward x) := by
  simp only [DimPreserving] at hs ht
  have hxulen : (tWhere c.mask x (List.replicate x.length 0)).length = n := by
    rw [tWhere_length]; simp [hm, hx]
  have hnotlen : (c.mask.map (!·)).length = n := by simp [hm]
  have hslen : (c.s (tWhere c.mask x (List.replicate x.length 0))).length = n := by
    rw [hs]; exact hxulen
  have htlen : (c.t (tWhere c.mask x (List.replicate x.length 0))).length = n := by
    rw [ht]; exact hxulen
  have hscl : (tWhere (c.mask.map (!·))
      (c.s (tWhere c.mask x (List.replicate x.length 0)))
      (List.replicate (tWhere c.mask x (List.replicate x.length 0)).length 0)).length = n := by
    rw [tWhere_length]; simp [hnotlen, hslen, hxulen]
  have htcl : (tWhere (c.mask.map (!·))
      (c.t (tWhere c.mask x (List.replicate x.length 0)))
      (List.replicate (tWhere c.mask x (List.replicate x.length 0)).length 0)).length = n := by
    rw [tWhere_length]; simp [hnotlen, htlen, hxulen]
  unfold CouplingLayer.forwardShaped
  rw [bwhere_eq_tWhere c.mask x _ n hm hx (by simp [hx]), Option.some_bind]
  rw [bwhere_eq_tWhere _ _ _ n hnotlen hslen (by simp [hxulen]), Option.some_bind]
  rw [bwhere_eq_tWhere _ _ _ n hnotlen htlen (by simp [hxulen]), Option.some_bind]
  rw [bcast2_eq_zipWith _ x _ n hx hscl, Option.some_bind]
  rw [bcast2_eq_zipWith _ _ _ n
    (by rw [List.length_zipWith, hscl, hx]; omega) htcl, Option.some_bind]
  rw [zipWith_mul_exp_add]
  rw [bwhere_eq_tWhere _ _ _ n hnotlen
    (by rw [zipWith3_length, hscl, htcl, hx]; omega) hxulen, Option.some_bind]
  rfl

theorem inverseShaped_wellshaped (c : CouplingLayer) (y : List ℝ) (n : ℕ)
    (hm : c.mask.length = n) (hy : y.length = n)
    (hs : DimPreserving c.s) (ht : DimPreserving c.t) :
    c.inverseShaped y = some (c.inverse y) := by
  simp only [DimPreserving] at hs ht
  have hxulen : (tWhere c.mask y (List.replicate y.length 0)).length = n := by
    rw [tWhere_length]; simp [hm, hy]
  have hnotlen : (c.mask.map (!·)).length = n := by simp [hm]
  have hslen : (c.s (tWhere c.mask y (List.replicate y.length 0))).length = n := by
    rw [hs]; exact hxulen
  have htlen : (c.t (tWhere c.mask y (List.replicate y.length 0))).length = n := by
    rw [ht]; exact hxulen
  have hscl : (tWhere (c.mask.map (!·))
      (c.s (tWhere c.mask y (List.replicate y.length 0)))
      (List.replicate (tWhere c.mask y (List.replicate y.length 0)).length 0)).length = n := by
    rw [tWhere_length]; simp [hnotlen, hslen, hxulen]
  have htcl : (tWhere (c.mask.map (!·))
      (c.t (tWhere c.mask y (List.replicate y.length 0)))
      (List.replicate (tWhere c.mask y (List.replicate y.length 0)).length 0)).length = n := by
    rw [tWhere_length]; simp [hnotlen, htlen, hxulen]
  unfold CouplingLayer.inverseShaped
  rw [bwhere_eq_tWhere c.mask y _ n hm hy (by simp [hy]), Option.some_bind]
  rw [bwhere_eq_tWhere _ _ _ n hnotlen hslen (by simp [hxulen]), Option.some_bind]
  rw [bwhere_eq_tWhere _ _ _ n hnotlen htlen (by simp [hxulen]), Option.some_bind]
  rw [bcast2_eq_zipWith _ y _ n hy htcl, Option.some_bind]
  rw [bcast2_eq_zipWith _ _ _ n
    (by rw [List.length_zipWith, htcl, hy]; omega) hscl, Option.some_bind]
  rw [zipWith_sub_mul_exp]
  rw [bwhere_eq_tWhere _ _ _ n hnotlen
    (by rw [zipWith3_length, hscl, htcl, hy]; omega) hxulen]
  rfl

/-- C10 (counterexample): with a length-1 mask and a length-2 input the
mask length differs from the input's last dimension, yet neither
`forward` nor `inverse` fails — the substrate silently broadcasts the
mask and each call returns a result. -/
theorem shape_error_claim_counterexample :
    clBroadcast.mask.length ≠ ([1, 2] : List ℝ).length ∧
    clBroadcast.forwardShaped [1, 2] = some ([1, 2], 0) ∧
    clBroadcast.inverseShaped [1, 2] = some [1, 2] := by
  refine ⟨by simp [clBroadcast], ?_, ?_⟩
  · simp [CouplingLayer.forwardShaped, clBroadcast, zeroNet, bwhere, bcast2,
      broadcastLen3, broadcastLen, bidx, List.range_succ, Real.exp_zero]
  · simp [CouplingLayer.inverseShaped, clBroadcast, zeroNet, bwhere, bcast2,
      broadcastLen3, broadcastLen, bidx, List.range_succ, Real.exp_zero,
      mul_zero, neg_zero]

/-- C10 (amended): a mask-length/input-dimension mismatch fails at call
time only when the two lengths are not broadcast-compatible (neither
equal nor either equal to 1); a broadcast-compatible mismatch is silently
broadcast instead; and when the mask length equals the input dimension
and the networks preserve dimensionality, no shape error occurs and both
operations return their plain results.  (In the incompatible case the
substrate raises its generic shape error; no dedicated `ShapeError` type
exists in the source.) -/
theorem shape_mismatch_behavior :
    (∀ (c : CouplingLayer) (x : List ℝ), c.mask.length ≠ 1 → x.length ≠ 1 →
      c.mask.length ≠ x.length → c.forwardShaped x = none) ∧
    (∀ (c : CouplingLayer) (y : List ℝ), c.mask.length ≠ 1 → y.length ≠ 1 →
      c.mask.length ≠ y.length → c.inverseShaped y = none) ∧
    (∀ (c : CouplingLayer) (z : List ℝ) (n : ℕ), c.mask.length = n →
      z.length = n → DimPreserving c.s → DimPreserving c.t →
      c.forwardShaped z = some (c.forward z) ∧
      c.inverseShaped z = some (c.inverse z)) :=
  ⟨forwardShaped_shape_error, inverseShaped_shape_error,
   fun c z n hm hz hs ht =>
     ⟨forwardShaped_wellshaped c z n hm hz hs ht,
      inverseShaped_wellshaped c z n hm hz hs ht⟩⟩

/-- Witness: a length-3 mask against a length-2 input fails both ways,
and the scenario layer (mask length 2, zero networks) runs without error
and agrees with the plain semantics. -/
theorem shape_mismatch_behavior_witness :
    clMismatch.forwardShaped [1, 2] = none ∧
    clMismatch.inverseShaped [1, 2] = none ∧
    (clDemo.forwardShaped [1, 2] = some (clDemo.forward [1, 2]) ∧
     clDemo.inverseShaped [1, 2] = some (clDemo.inverse [1, 2])) :=
  ⟨shape_mismatch_behavior.1 clMismatch [1, 2] (by simp [clMismatch])
      (by simp) (by simp [clMismatch]),
   shape_mismatch_behavior.2.1 clMismatch [1, 2] (by simp [clMismatch])
      (by simp) (by simp [clMismatch]),
   shape_mismatch_behavior.2.2 clDemo [1, 2] 2 (by simp [clDemo]) (by simp)
      (by intro z; simp [clDemo, zeroNet]) (by intro z; simp [clDemo, zeroNet])⟩
